import Mathlib

/-!
Shallow embedding of the scam-detector core (`src/lib/analyze.ts`): the
pattern catalog `SCAM_PATTERNS`, the heuristic scorer `analyzeHeuristically`,
and the orchestrator `analyzeMessage` with its remote-classifier validation.
JavaScript strings are modelled through their character lists; the ASCII
fragment of `toLowerCase`/`toUpperCase` is used, which is exact on the
catalog keywords and on every input considered here.
-/

/-- Model of JavaScript `s.toLowerCase()` (ASCII fragment, exact on the catalog). -/
def toLowerStr (s : String) : String := ⟨s.data.map Char.toLower⟩

/-- Model of JavaScript `w.toUpperCase()` (ASCII fragment). -/
def toUpperStr (s : String) : String := ⟨s.data.map Char.toUpper⟩

/-- Whether `pat` occurs at the head of `s` (character-list model). -/
def isPrefL : List Char → List Char → Bool
  | [], _ => true
  | _ :: _, [] => false
  | a :: as, b :: bs => a == b && isPrefL as bs

/-- Whether `pat` occurs as a contiguous substring of `s` (character-list model). -/
def isSubL (pat : List Char) : List Char → Bool
  | [] => isPrefL pat []
  | c :: rest => isPrefL pat (c :: rest) || isSubL pat rest

/-- Model of JavaScript `s.includes(pat)`. -/
def strIncludes (s pat : String) : Bool := isSubL pat.data s.data

/-- One scam-indicator category of the pattern catalog: trigger keywords and
a human-readable description (`src/lib/analyze.ts`, `SCAM_PATTERNS`). -/
structure PatternCategory where
  keywords : List String
  description : String

/-- Catalog entry `urgentLanguage` (verbatim from the source). -/
def urgentLanguage : PatternCategory :=
  { keywords := ["urgent", "immediately", "act now", "limited time", "expires",
      "hurry", "today only", "last chance", "final notice", "suspended",
      "locked", "expire"],
    description := "Urgent or time-pressured language" }

/-- Catalog entry `paymentRequest` (verbatim from the source). -/
def paymentRequest : PatternCategory :=
  { keywords := ["wire transfer", "gift card", "bitcoin", "crypto", "payment",
      "send money", "pay now", "invoice", "western union", "paypal", "venmo",
      "cash app", "zelle"],
    description := "Requests for payment or financial information" }

/-- Catalog entry `impersonation` (verbatim from the source). -/
def impersonation : PatternCategory :=
  { keywords := ["verify account", "confirm identity", "update information",
      "security alert", "unusual activity", "click here", "log in",
      "reset password", "suspended account", "unauthorized access"],
    description := "Impersonation of official organizations" }

/-- Catalog entry `prizes` (verbatim from the source). -/
def prizes : PatternCategory :=
  { keywords := ["you\x27ve won", "congratulations", "winner", "prize",
      "lottery", "claim your", "free gift", "selected", "lucky"],
    description := "Too-good-to-be-true offers or prizes" }

/-- Catalog entry `threats` (verbatim from the source). -/
def threats : PatternCategory :=
  { keywords := ["legal action", "arrest", "warrant", "police", "lawsuit",
      "court", "penalty", "fine", "consequences", "investigation"],
    description := "Threats or legal intimidation" }

/-- The pattern catalog in declaration order; `Object.entries` iterates the
source object in exactly this insertion order. -/
def SCAM_PATTERNS : List PatternCategory :=
  [urgentLanguage, paymentRequest, impersonation, prizes, threats]

/-- The keywords of a category that occur in the lowercased message:
`pattern.keywords.filter((keyword) => messageLower.includes(keyword.toLowerCase()))`. -/
def matchedKeywords (messageLower : String) (c : PatternCategory) : List String :=
  c.keywords.filter (fun keyword => strIncludes messageLower (toLowerStr keyword))

/-- One iteration of the category loop: on a match, push the description,
push up to the first 3 matched keywords, and add `15 + 5 * matches` to the
running score; otherwise leave the accumulator unchanged. -/
def categoryStep (messageLower : String) :
    List String × List String × Int → PatternCategory → List String × List String × Int
  | (dps, sps, rs), c =>
    let mk := matchedKeywords messageLower c
    if 0 < mk.length then
      (dps ++ [c.description], sps ++ mk.take 3, rs + (15 + (mk.length : Int) * 5))
    else (dps, sps, rs)

/-- The category loop of the scorer, folded over the catalog in declaration
order, starting from empty accumulators and score 0. -/
def categoryScan (messageLower : String) : List String × List String × Int :=
  SCAM_PATTERNS.foldl (categoryStep messageLower) ([], [], 0)

/-- Count of `!` characters in the raw message (`message.match(/!/g)`). -/
def exclamationCount (message : String) : Nat :=
  (message.data.filter (fun c => c == '!')).length

/-- Model of JavaScript `message.split(" ")`: split on every single space. -/
def splitSp : List Char → List (List Char)
  | [] => [[]]
  | c :: rest =>
    match splitSp rest with
    | [] => [[]]
    | w :: ws => if c == ' ' then [] :: w :: ws else (c :: w) :: ws

/-- A word counted by the all-caps check: length above 3 and fixed by
uppercasing (`word.length > 3 && word === word.toUpperCase()`). -/
def isUpperWordL (w : List Char) : Bool :=
  decide (3 < w.length) && (w.map Char.toUpper == w)

/-- `hasMultipleExclamations`: more than 2 exclamation marks. -/
def hasMultipleExclamations (message : String) : Bool :=
  decide (2 < exclamationCount message)

/-- `hasAllCaps`: more than 2 space-separated words that are long and fully
uppercase. -/
def hasAllCaps (message : String) : Bool :=
  decide (2 < ((splitSp message.data).filter isUpperWordL).length)

/-- The whitespace class of the regex `\s` (ASCII fragment). -/
def isWsChar (c : Char) : Bool :=
  c == ' ' || c == '\t' || c == '\n' || c == '\r' || c == '\x0b' || c == '\x0c'

/-- Occurrence of 3-or-more consecutive whitespace characters (`/\s{3,}/`). -/
def hasTripleWsL : List Char → Bool
  | a :: b :: c :: rest =>
    (isWsChar a && isWsChar b && isWsChar c) || hasTripleWsL (b :: c :: rest)
  | _ => false

/-- Occurrence of a lowercase ASCII letter immediately followed by an
uppercase ASCII letter (`/[a-z][A-Z]/`). -/
def hasCaseBreakL : List Char → Bool
  | a :: b :: rest =>
    (('a' ≤ a && a ≤ 'z') && ('A' ≤ b && b ≤ 'Z')) || hasCaseBreakL (b :: rest)
  | _ => false

/-- `hasPoorSpacing`: triple whitespace or a mid-word case break. -/
def hasPoorSpacing (message : String) : Bool :=
  hasTripleWsL message.data || hasCaseBreakL message.data

/-- The formatting-anomaly condition guarding the grammar/formatting bump. -/
def formattingFlag (message : String) : Bool :=
  hasMultipleExclamations message || hasAllCaps message || hasPoorSpacing message

/-- `hasLinks`: the regex `/https?:\/\/|www\./i` as a case-insensitive
substring test. -/
def hasLinks (message : String) : Bool :=
  strIncludes (toLowerStr message) "http://" ||
    strIncludes (toLowerStr message) "https://" ||
    strIncludes (toLowerStr message) "www."

/-- `hasShortenedLinks`: the regex `/(bit\.ly|tinyurl|goo\.gl)/i` as a
case-insensitive substring test. -/
def hasShortenedLinks (message : String) : Bool :=
  strIncludes (toLowerStr message) "bit.ly" ||
    strIncludes (toLowerStr message) "tinyurl" ||
    strIncludes (toLowerStr message) "goo.gl"

/-- The sensitive-information keyword list (verbatim from the source). -/
def personalInfoKeywords : List String :=
  ["social security", "ssn", "credit card", "bank account", "password",
   "pin", "date of birth"]

/-- `hasPersonalInfoRequest`: some sensitive-information keyword occurs in
the lowercased message. -/
def hasPersonalInfoRequest (messageLower : String) : Bool :=
  personalInfoKeywords.any (fun keyword => strIncludes messageLower keyword)

/-- The grammar/formatting step on the (patterns, score) state. -/
def formattingCheck (message : String) (st : List String × Int) : List String × Int :=
  if formattingFlag message then
    (st.1 ++ ["Poor grammar or unusual formatting"], st.2 + 10)
  else st

/-- The link step on the (patterns, score) state: shortened links score 20
unconditionally; generic links score 10 only when a pattern was already
detected. -/
def linkCheck (message : String) (st : List String × Int) : List String × Int :=
  if hasShortenedLinks message then
    (st.1 ++ ["Shortened or suspicious URLs"], st.2 + 20)
  else if hasLinks message && decide (0 < st.1.length) then
    (st.1 ++ ["Contains links (verify before clicking)"], st.2 + 10)
  else st

/-- The sensitive-information step on the (patterns, score) state. -/
def personalInfoCheck (messageLower : String) (st : List String × Int) : List String × Int :=
  if hasPersonalInfoRequest messageLower then
    (st.1 ++ ["Requests for sensitive personal information"], st.2 + 25)
  else st

/-- The (patterns, score) state after the category loop and the formatting
step, i.e. just before the link step. -/
def preLinkState (message : String) : List String × Int :=
  formattingCheck message
    ((categoryScan (toLowerStr message)).1, (categoryScan (toLowerStr message)).2.2)

/-- The (patterns, score) state after all four detection steps. -/
def scoredState (message : String) : List String × Int :=
  personalInfoCheck (toLowerStr message) (linkCheck message (preLinkState message))

/-- The final risk score: cap at 100, then the short-benign-message leniency
adjustment (`Math.max(0, riskScore - 10)` when length < 50 and no patterns). -/
def finalScore (message : String) : Int :=
  let clamped := min 100 (scoredState message).2
  if message.length < 50 ∧ (scoredState message).1.length = 0 then
    max 0 (clamped - 10)
  else clamped

/-- The risk-level thresholds: at most 30 low, at most 70 medium, else high. -/
def riskLevelOf (riskScore : Int) : String :=
  if riskScore ≤ 30 then "low"
  else if riskScore ≤ 70 then "medium"
  else "high"

/-- JavaScript `detectedPatterns[0]?.toLowerCase() || "suspicious language"`. -/
def headPatternLowered : List String → String
  | [] => "suspicious language"
  | p :: _ => if toLowerStr p = "" then "suspicious language" else toLowerStr p

/-- JavaScript `Array.prototype.join(sep)` on a list of strings. -/
def joinWith (sep : String) : List String → String
  | [] => ""
  | [s] => s
  | s :: rest => s ++ sep ++ joinWith sep rest

/-- The explanation synthesizer: one template per branch of the source's
`if riskScore === 0 / low / medium / else` chain. -/
def explanationOf (riskScore : Int) (riskLevel : String) (detectedPatterns : List String) : String :=
  if riskScore = 0 then
    "This message appears to be legitimate with no obvious scam indicators detected. However, always exercise caution when sharing personal information or clicking on links."
  else if riskLevel = "low" then
    "This message shows minimal risk indicators. " ++
      (if 0 < detectedPatterns.length then
        "While some patterns were detected, they may be used in legitimate contexts."
      else "No significant scam patterns were found.") ++
      " Always verify the sender\x27s identity before taking action."
  else if riskLevel = "medium" then
    "This message contains several concerning elements that are commonly found in scam attempts. The use of " ++
      headPatternLowered detectedPatterns ++
      " and other patterns suggest caution is warranted. Verify the sender through official channels before responding or clicking any links."
  else
    "⚠️ This message exhibits multiple high-risk characteristics typical of scam attempts. The combination of " ++
      joinWith " and " ((detectedPatterns.take 2).map toLowerStr) ++
      " are major red flags. Do not click any links, provide personal information, or send money. Contact the organization directly using official contact information to verify."

/-- JavaScript `Array.from(new Set(xs))`: drop every element already seen,
keeping the first occurrence (insertion order of the set). -/
def dedupKeepFirst : List String → List String → List String
  | _, [] => []
  | seen, a :: l =>
    if a ∈ seen then dedupKeepFirst seen l
    else a :: dedupKeepFirst (a :: seen) l

/-- The verdict record (`ScamAnalysisResult` of `src/lib/types.ts`). -/
structure ScamAnalysisResult where
  riskScore : Int
  riskLevel : String
  explanation : String
  patterns : List String
  suspiciousPhrases : List String
deriving Repr, DecidableEq

/-- The heuristic scorer and explanation synthesizer
(`analyzeHeuristically` of `src/lib/analyze.ts`). -/
def analyzeHeuristically (message : String) : ScamAnalysisResult :=
  let detectedPatterns := (scoredState message).1
  let riskScore := finalScore message
  let riskLevel := riskLevelOf riskScore
  { riskScore := riskScore,
    riskLevel := riskLevel,
    explanation := explanationOf riskScore riskLevel detectedPatterns,
    patterns :=
      if 0 < detectedPatterns.length then detectedPatterns
      else ["No scam patterns detected"],
    suspiciousPhrases :=
      (dedupKeepFirst [] (categoryScan (toLowerStr message)).2.1).take 8 }

/-- A parsed remote response before validation: `riskScoreNum` is `some n`
exactly when `typeof analysis.riskScore === "number"`, and the `Option`
fields are `none` when the parsed object lacks them. -/
structure RawAnalysis where
  riskScoreNum : Option Int
  riskLevel : Option String
  explanation : Option String
  patterns : List String
  suspiciousPhrases : List String

/-- JavaScript truthiness of an optional string field. -/
def jsTruthyStr : Option String → Bool
  | none => false
  | some s => decide (s ≠ "")

/-- The source's validation of the parsed remote response:
`typeof analysis.riskScore === "number"` and `analysis.riskLevel` truthy. -/
def validRaw (a : RawAnalysis) : Bool :=
  a.riskScoreNum.isSome && jsTruthyStr a.riskLevel

/-- The accepted remote object returned as-is by the orchestrator. -/
def rawToResult (a : RawAnalysis) : ScamAnalysisResult :=
  { riskScore := a.riskScoreNum.getD 0,
    riskLevel := (a.riskLevel).getD "",
    explanation := (a.explanation).getD "",
    patterns := a.patterns,
    suspiciousPhrases := a.suspiciousPhrases }

/-- Outcome of the single remote-classifier attempt: `failed` covers a
network or service error and an unparsable response (both throw before
validation); `parsed` carries the parsed JSON object. -/
inductive RemoteOutcome where
  | failed
  | parsed (a : RawAnalysis)

/-- The orchestrator (`analyzeMessage` of `src/lib/analyze.ts`): heuristic
path when the credential is absent, the remote call fails, or validation
rejects the parsed response; otherwise the accepted remote verdict as-is. -/
def analyzeMessage (hasApiKey : Bool) (outcome : RemoteOutcome) (message : String) :
    ScamAnalysisResult :=
  if hasApiKey = false then analyzeHeuristically message
  else
    match outcome with
    | RemoteOutcome.failed => analyzeHeuristically message
    | RemoteOutcome.parsed a =>
      if validRaw a = false then analyzeHeuristically message
      else rawToResult a

/-- Spec-side formulation of the category loop (step 2 of §4.2 of the spec),
stated per category rather than as a fold: the matched patterns are the
descriptions of the matching categories in catalog order, the phrase
accumulator concatenates the first 3 matched keywords of each matching
category, and the score sums `15 + 5 × matches` over the matching
categories. -/
def categoryScanSpec (messageLower : String) : List String × List String × Int :=
  ((SCAM_PATTERNS.filter fun c => decide (0 < (matchedKeywords messageLower c).length)).map
      (fun c => c.description),
   ((SCAM_PATTERNS.filter fun c => decide (0 < (matchedKeywords messageLower c).length)).map
      (fun c => (matchedKeywords messageLower c).take 3)).flatten,
   ((SCAM_PATTERNS.filter fun c => decide (0 < (matchedKeywords messageLower c).length)).map
      (fun c => (15 : Int) + ((matchedKeywords messageLower c).length : Int) * 5)).sum)

/-- An extension step: patterns only grow at the tail, the score only grows. -/
def Extends (a b : List String × Int) : Prop :=
  ∃ ext k, b.1 = a.1 ++ ext ∧ b.2 = a.2 + k ∧ (0 : Int) ≤ k

/-- The state invariant threaded through the steps: an empty pattern list
forces score 0, the score is nonnegative, and a nonempty pattern list
forces a score of at least 10. -/
def StInv (st : List String × Int) : Prop :=
  (st.1 = [] → st.2 = 0) ∧ 0 ≤ st.2 ∧ (st.1 ≠ [] → 10 ≤ st.2)

/-- Index of the first occurrence of `x` in `l` (length of `l` if absent). -/
def firstIdx : List String → String → Nat
  | [], _ => 0
  | a :: l, x => if a = x then 0 else firstIdx l x + 1

/-- All strings the scorer can ever push onto the detected-pattern list. -/
def detectableDescriptions : List String :=
  ["Urgent or time-pressured language",
   "Requests for payment or financial information",
   "Impersonation of official organizations",
   "Too-good-to-be-true offers or prizes",
   "Threats or legal intimidation",
   "Poor grammar or unusual formatting",
   "Shortened or suspicious URLs",
   "Contains links (verify before clicking)",
   "Requests for sensitive personal information"]

/-- A parsed remote response that passes the source's validation while
violating the verdict invariants: score 500, tier "banana", empty
explanation. -/
def badRemote : RawAnalysis :=
  { riskScoreNum := some 500, riskLevel := some "banana", explanation := some "",
    patterns := [], suspiciousPhrases := [] }

/-! ## Helper lemmas about the category loop -/

theorem foldl_categoryStep (ml : String) (L : List PatternCategory) :
    ∀ (dps sps : List String) (rs : Int),
    L.foldl (categoryStep ml) (dps, sps, rs) =
      (dps ++ (L.filter fun c => decide (0 < (matchedKeywords ml c).length)).map
          (fun c => c.description),
       sps ++ ((L.filter fun c => decide (0 < (matchedKeywords ml c).length)).map
          (fun c => (matchedKeywords ml c).take 3)).flatten,
       rs + ((L.filter fun c => decide (0 < (matchedKeywords ml c).length)).map
          (fun c => (15 : Int) + ((matchedKeywords ml c).length : Int) * 5)).sum) := by
  induction L with
  | nil => intro dps sps rs; simp
  | cons c rest ih =>
    intro dps sps rs
    by_cases h : 0 < (matchedKeywords ml c).length
    · rw [List.foldl_cons]
      show List.foldl (categoryStep ml)
        (if 0 < (matchedKeywords ml c).length then
          (dps ++ [c.description], sps ++ (matchedKeywords ml c).take 3,
            rs + (15 + ((matchedKeywords ml c).length : Int) * 5))
        else (dps, sps, rs)) rest = _
      rw [if_pos h, ih]
      simp [List.filter_cons, h, List.append_assoc]
      ring
    · rw [List.foldl_cons]
      show List.foldl (categoryStep ml)
        (if 0 < (matchedKeywords ml c).length then
          (dps ++ [c.description], sps ++ (matchedKeywords ml c).take 3,
            rs + (15 + ((matchedKeywords ml c).length : Int) * 5))
        else (dps, sps, rs)) rest = _
      rw [if_neg h, ih]
      simp [List.filter_cons, h]

theorem categoryScan_eq (ml : String) :
    categoryScan ml =
      ((SCAM_PATTERNS.filter fun c => decide (0 < (matchedKeywords ml c).length)).map
          (fun c => c.description),
       ((SCAM_PATTERNS.filter fun c => decide (0 < (matchedKeywords ml c).length)).map
          (fun c => (matchedKeywords ml c).take 3)).flatten,
       ((SCAM_PATTERNS.filter fun c => decide (0 < (matchedKeywords ml c).length)).map
          (fun c => (15 : Int) + ((matchedKeywords ml c).length : Int) * 5)).sum) := by
  unfold categoryScan
  rw [foldl_categoryStep]
  simp

theorem categoryScan_inv (ml : String) :
    ((categoryScan ml).1 = [] → (categoryScan ml).2.2 = 0) ∧
      0 ≤ (categoryScan ml).2.2 ∧
      ((categoryScan ml).1 ≠ [] → 20 ≤ (categoryScan ml).2.2) := by
  rw [categoryScan_eq]
  set F := SCAM_PATTERNS.filter fun c => decide (0 < (matchedKeywords ml c).length) with hF
  refine ⟨?_, ?_, ?_⟩
  · intro h
    simp only [List.map_eq_nil_iff] at h
    simp [h]
  · apply List.sum_nonneg
    intro x hx
    simp only [List.mem_map] at hx
    obtain ⟨c, _, rfl⟩ := hx
    positivity
  · intro h
    simp only [ne_eq, List.map_eq_nil_iff] at h
    obtain ⟨c, hc⟩ := List.exists_mem_of_ne_nil F h
    have hlen : 0 < (matchedKeywords ml c).length := by
      have := List.of_mem_filter (p := fun c => decide (0 < (matchedKeywords ml c).length)) hc
      simpa using this
    have hterm : (20 : Int) ≤ 15 + ((matchedKeywords ml c).length : Int) * 5 := by
      omega
    calc (20 : Int) ≤ 15 + ((matchedKeywords ml c).length : Int) * 5 := hterm
      _ ≤ (F.map (fun c => (15 : Int) + ((matchedKeywords ml c).length : Int) * 5)).sum := by
          apply List.single_le_sum
          · intro x hx
            simp only [List.mem_map] at hx
            obtain ⟨d, _, rfl⟩ := hx
            positivity
          · exact List.mem_map_of_mem _ hc

/-! ## Helper lemmas about the detection steps -/

theorem formattingCheck_shape (m : String) (st : List String × Int) :
    formattingCheck m st = st ∨
      formattingCheck m st =
        (st.1 ++ ["Poor grammar or unusual formatting"], st.2 + 10) := by
  unfold formattingCheck
  split
  · exact Or.inr rfl
  · exact Or.inl rfl

theorem linkCheck_shape (m : String) (st : List String × Int) :
    linkCheck m st = st ∨
      linkCheck m st = (st.1 ++ ["Shortened or suspicious URLs"], st.2 + 20) ∨
      linkCheck m st = (st.1 ++ ["Contains links (verify before clicking)"], st.2 + 10) := by
  unfold linkCheck
  split
  · exact Or.inr (Or.inl rfl)
  · split
    · exact Or.inr (Or.inr rfl)
    · exact Or.inl rfl

theorem personalInfoCheck_shape (m : String) (st : List String × Int) :
    personalInfoCheck m st = st ∨
      personalInfoCheck m st =
        (st.1 ++ ["Requests for sensitive personal information"], st.2 + 25) := by
  unfold personalInfoCheck
  split
  · exact Or.inr rfl
  · exact Or.inl rfl

theorem Extends.rfl (a : List String × Int) : Extends a a :=
  ⟨[], 0, by simp, by simp, le_refl 0⟩

theorem Extends.trans {a b c : List String × Int}
    (h1 : Extends a b) (h2 : Extends b c) : Extends a c := by
  obtain ⟨e1, k1, hb1, hb2, hk1⟩ := h1
  obtain ⟨e2, k2, hc1, hc2, hk2⟩ := h2
  exact ⟨e1 ++ e2, k1 + k2, by rw [hc1, hb1, List.append_assoc],
    by rw [hc2, hb2]; ring, by omega⟩

theorem extends_of_append {a : List String × Int} {d : String} {k : Int}
    (hk : (0 : Int) ≤ k) : Extends a (a.1 ++ [d], a.2 + k) :=
  ⟨[d], k, rfl, rfl, hk⟩

theorem formattingCheck_extends (m : String) (st : List String × Int) :
    Extends st (formattingCheck m st) := by
  rcases formattingCheck_shape m st with h | h <;> rw [h]
  · exact Extends.rfl st
  · exact extends_of_append (by omega)

theorem linkCheck_extends (m : String) (st : List String × Int) :
    Extends st (linkCheck m st) := by
  rcases linkCheck_shape m st with h | h | h <;> rw [h]
  · exact Extends.rfl st
  · exact extends_of_append (by omega)
  · exact extends_of_append (by omega)

theorem personalInfoCheck_extends (m : String) (st : List String × Int) :
    Extends st (personalInfoCheck m st) := by
  rcases personalInfoCheck_shape m st with h | h <;> rw [h]
  · exact Extends.rfl st
  · exact extends_of_append (by omega)

theorem scoredState_extends_scan (m : String) :
    Extends ((categoryScan (toLowerStr m)).1, (categoryScan (toLowerStr m)).2.2)
      (scoredState m) := by
  unfold scoredState
  refine Extends.trans (Extends.trans ?_ (linkCheck_extends m (preLinkState m)))
    (personalInfoCheck_extends (toLowerStr m) _)
  exact formattingCheck_extends m _

theorem stinv_of_append {st : List String × Int} {d : String} {k : Int}
    (hinv : StInv st) (hk : (10 : Int) ≤ k) :
    StInv (st.1 ++ [d], st.2 + k) := by
  obtain ⟨h1, h2, h3⟩ := hinv
  refine ⟨?_, by omega, ?_⟩
  · intro h
    exact absurd h (by simp)
  · intro _
    omega

theorem scoredState_inv (m : String) : StInv (scoredState m) := by
  have base : StInv ((categoryScan (toLowerStr m)).1, (categoryScan (toLowerStr m)).2.2) := by
    obtain ⟨h1, h2, h3⟩ := categoryScan_inv (toLowerStr m)
    exact ⟨h1, h2, fun h => by have := h3 h; omega⟩
  have step1 : StInv (preLinkState m) := by
    unfold preLinkState
    rcases formattingCheck_shape m
        ((categoryScan (toLowerStr m)).1, (categoryScan (toLowerStr m)).2.2) with h | h <;>
      rw [h]
    · exact base
    · exact stinv_of_append base (by omega)
  have step2 : StInv (linkCheck m (preLinkState m)) := by
    rcases linkCheck_shape m (preLinkState m) with h | h | h <;> rw [h]
    · exact step1
    · exact stinv_of_append step1 (by omega)
    · exact stinv_of_append step1 (by omega)
  unfold scoredState
  rcases personalInfoCheck_shape (toLowerStr m) (linkCheck m (preLinkState m)) with h | h <;>
    rw [h]
  · exact step2
  · exact stinv_of_append step2 (by omega)

/-! ## Helper lemmas about the final score -/

theorem finalScore_eq_clamped (m : String) :
    finalScore m = min 100 (scoredState m).2 := by
  unfold finalScore
  split
  · rename_i h
    have hnil : (scoredState m).1 = [] := List.length_eq_zero.mp h.2
    have h0 : (scoredState m).2 = 0 := (scoredState_inv m).1 hnil
    rw [h0]
    norm_num
  · rfl

theorem finalScore_bounds (m : String) :
    0 ≤ finalScore m ∧ finalScore m ≤ 100 := by
  rw [finalScore_eq_clamped]
  have h := (scoredState_inv m).2.1
  constructor
  · exact le_min (by norm_num) h
  · exact min_le_left _ _

theorem finalScore_zero_iff (m : String) :
    finalScore m = 0 ↔ (scoredState m).1 = [] := by
  rw [finalScore_eq_clamped]
  constructor
  · intro h
    by_contra hne
    have h10 := (scoredState_inv m).2.2 hne
    have : (10 : Int) ≤ min 100 (scoredState m).2 := le_min (by norm_num) h10
    omega
  · intro h
    rw [(scoredState_inv m).1 h]
    norm_num

theorem ten_le_finalScore (m : String) (h : (scoredState m).1 ≠ []) :
    10 ≤ finalScore m := by
  rw [finalScore_eq_clamped]
  exact le_min (by norm_num) ((scoredState_inv m).2.2 h)

/-! ## Helper lemmas about deduplication and phrase order -/

theorem firstIdx_cons_self (c : String) (t : List String) :
    firstIdx (c :: t) c = 0 := by
  simp [firstIdx]

theorem firstIdx_cons_ne {a c : String} (t : List String) (h : c ≠ a) :
    firstIdx (c :: t) a = firstIdx t a + 1 := by
  simp [firstIdx, h]

theorem mem_dedupKeepFirst {x : String} : ∀ {seen l : List String},
    x ∈ dedupKeepFirst seen l → x ∈ l ∧ x ∉ seen := by
  intro seen l
  induction l generalizing seen with
  | nil => intro h; simp [dedupKeepFirst] at h
  | cons a l ih =>
    intro h
    by_cases ha : a ∈ seen
    · simp only [dedupKeepFirst, if_pos ha] at h
      obtain ⟨h1, h2⟩ := ih h
      exact ⟨List.mem_cons_of_mem _ h1, h2⟩
    · simp only [dedupKeepFirst, if_neg ha] at h
      rcases List.mem_cons.mp h with rfl | h'
      · exact ⟨List.mem_cons_self _ _, ha⟩
      · obtain ⟨h1, h2⟩ := ih h'
        exact ⟨List.mem_cons_of_mem _ h1,
          fun hx => h2 (List.mem_cons_of_mem _ hx)⟩

theorem dedupKeepFirst_pairwise : ∀ (l seen : List String),
    (dedupKeepFirst seen l).Pairwise (fun a b => firstIdx l a < firstIdx l b) := by
  intro l
  induction l with
  | nil => intro seen; simp [dedupKeepFirst]
  | cons c t ih =>
    intro seen
    by_cases hc : c ∈ seen
    · simp only [dedupKeepFirst, if_pos hc]
      refine (ih seen).imp_of_mem ?_
      intro a b ha hb hab
      have hna : c ≠ a := by
        intro e
        exact (mem_dedupKeepFirst ha).2 (e ▸ hc)
      have hnb : c ≠ b := by
        intro e
        exact (mem_dedupKeepFirst hb).2 (e ▸ hc)
      rw [firstIdx_cons_ne t hna, firstIdx_cons_ne t hnb]
      omega
    · simp only [dedupKeepFirst, if_neg hc]
      refine List.pairwise_cons.mpr ⟨?_, ?_⟩
      · intro b hb
        have hnb : c ≠ b := by
          intro e
          exact (mem_dedupKeepFirst hb).2 (by rw [← e]; exact List.mem_cons_self c seen)
        rw [firstIdx_cons_self, firstIdx_cons_ne t hnb]
        omega
      · refine (ih (c :: seen)).imp_of_mem ?_
        intro a b ha hb hab
        have hna : c ≠ a := by
          intro e
          exact (mem_dedupKeepFirst ha).2 (by rw [← e]; exact List.mem_cons_self c seen)
        have hnb : c ≠ b := by
          intro e
          exact (mem_dedupKeepFirst hb).2 (by rw [← e]; exact List.mem_cons_self c seen)
        rw [firstIdx_cons_ne t hna, firstIdx_cons_ne t hnb]
        omega

theorem dedupKeepFirst_nodup (l seen : List String) :
    (dedupKeepFirst seen l).Nodup := by
  have h := dedupKeepFirst_pairwise l seen
  exact h.imp (fun {a b} hab e => by subst e; exact lt_irrefl _ hab)

/-! ## Helper lemmas about pattern descriptions, level and explanation -/

theorem categoryScan_patterns_mem (ml : String) :
    ∀ x ∈ (categoryScan ml).1, x ∈ detectableDescriptions := by
  rw [categoryScan_eq]
  intro x hx
  simp only [List.mem_map] at hx
  obtain ⟨c, hc, rfl⟩ := hx
  have hmem : c ∈ SCAM_PATTERNS := List.mem_of_mem_filter hc
  simp only [SCAM_PATTERNS, List.mem_cons, List.mem_singleton] at hmem
  rcases hmem with rfl | rfl | rfl | rfl | rfl | h
  · simp [urgentLanguage, detectableDescriptions]
  · simp [paymentRequest, detectableDescriptions]
  · simp [impersonation, detectableDescriptions]
  · simp [prizes, detectableDescriptions]
  · simp [threats, detectableDescriptions]
  · simp at h

theorem scoredState_patterns_mem (m : String) :
    ∀ x ∈ (scoredState m).1, x ∈ detectableDescriptions := by
  intro x hx
  have base := categoryScan_patterns_mem (toLowerStr m)
  have h1 : ∀ y ∈ (preLinkState m).1, y ∈ detectableDescriptions := by
    intro y hy
    unfold preLinkState at hy
    rcases formattingCheck_shape m
        ((categoryScan (toLowerStr m)).1, (categoryScan (toLowerStr m)).2.2) with h | h <;>
      rw [h] at hy
    · exact base y hy
    · rcases List.mem_append.mp hy with h' | h'
      · exact base y h'
      · simp only [List.mem_singleton] at h'
        subst h'
        simp [detectableDescriptions]
  have h2 : ∀ y ∈ (linkCheck m (preLinkState m)).1, y ∈ detectableDescriptions := by
    intro y hy
    rcases linkCheck_shape m (preLinkState m) with h | h | h <;> rw [h] at hy
    · exact h1 y hy
    · rcases List.mem_append.mp hy with h' | h'
      · exact h1 y h'
      · simp only [List.mem_singleton] at h'
        subst h'
        simp [detectableDescriptions]
    · rcases List.mem_append.mp hy with h' | h'
      · exact h1 y h'
      · simp only [List.mem_singleton] at h'
        subst h'
        simp [detectableDescriptions]
  unfold scoredState at hx
  rcases personalInfoCheck_shape (toLowerStr m) (linkCheck m (preLinkState m)) with h | h <;>
    rw [h] at hx
  · exact h2 x hx
  · rcases List.mem_append.mp hx with h' | h'
    · exact h2 x h'
    · simp only [List.mem_singleton] at h'
      subst h'
      simp [detectableDescriptions]

theorem riskLevelOf_mem (s : Int) :
    riskLevelOf s ∈ (["low", "medium", "high"] : List String) := by
  unfold riskLevelOf
  split_ifs <;> simp

theorem strAppend3_length_pos (a b c : String) (h : 0 < a.length) :
    0 < (a ++ b ++ c).length := by
  rw [String.length_append, String.length_append]
  omega

set_option maxRecDepth 8000 in
theorem explanationOf_length_pos (rs : Int) (lvl : String) (dps : List String) :
    0 < (explanationOf rs lvl dps).length := by
  unfold explanationOf
  split_ifs
  · decide
  · exact strAppend3_length_pos _ _ _ (by decide)
  · exact strAppend3_length_pos _ _ _ (by decide)
  · exact strAppend3_length_pos _ _ _ (by decide)
  · exact strAppend3_length_pos _ _ _ (by decide)

/-! ## Claim theorems -/

/-- C1: For every input message, the heuristic scorer's category loop —
folding the five catalog categories in declaration order (urgentLanguage,
paymentRequest, impersonation, prizes, threats) over the lowercased
message — yields exactly the spec-described data: for each category with
at least one matching keyword it appends the category description, appends
up to the first 3 matched keywords in keyword-list order, and adds
`15 + 5 × matches` to the score, while non-matching categories contribute
nothing. -/
theorem c1_category_loop_follows_spec (message : String) :
    categoryScan (toLowerStr message) = categoryScanSpec (toLowerStr message) :=
  categoryScan_eq (toLowerStr message)

/-- C2: `analyzeMessage` never propagates a failure: when the credential is
absent, or the remote call fails, or the parsed remote response fails the
schema validation, it returns exactly the heuristic verdict for the same
message. -/
theorem c2_orchestrator_fallback (message : String) (hasApiKey : Bool)
    (outcome : RemoteOutcome)
    (h : hasApiKey = false ∨ outcome = RemoteOutcome.failed ∨
      ∃ a, outcome = RemoteOutcome.parsed a ∧ validRaw a = false) :
    analyzeMessage hasApiKey outcome message = analyzeHeuristically message := by
  rcases h with rfl | rfl | ⟨a, rfl, hv⟩
  · rfl
  · cases hasApiKey <;> rfl
  · cases hasApiKey
    · rfl
    · simp [analyzeMessage, hv]

/-- Witness for C2 at a concrete message and a failed remote call. -/
theorem c2_orchestrator_fallback_witness :
    analyzeMessage false RemoteOutcome.failed "hello" = analyzeHeuristically "hello" :=
  c2_orchestrator_fallback "hello" false RemoteOutcome.failed (Or.inl rfl)

/-- C3: For every input message the heuristic verdict's riskScore lies in
[0, 100] and its riskLevel is the fixed threshold function of the score:
at most 30 low, 31–70 medium, above 70 high. -/
theorem c3_heuristic_score_bounds_and_level (message : String) :
    0 ≤ (analyzeHeuristically message).riskScore ∧
      (analyzeHeuristically message).riskScore ≤ 100 ∧
      (analyzeHeuristically message).riskLevel =
        (if (analyzeHeuristically message).riskScore ≤ 30 then "low"
         else if (analyzeHeuristically message).riskScore ≤ 70 then "medium"
         else "high") := by
  have hb := finalScore_bounds message
  exact ⟨hb.1, hb.2, rfl⟩

/-- C6: The heuristic path is a pure function of the message: identical
inputs yield identical verdicts. -/
theorem c6_heuristic_deterministic (m1 m2 : String) (h : m1 = m2) :
    analyzeHeuristically m1 = analyzeHeuristically m2 :=
  congrArg analyzeHeuristically h

/-- Witness for C6 at a concrete message. -/
theorem c6_heuristic_deterministic_witness :
    analyzeHeuristically "urgent" = analyzeHeuristically "urgent" :=
  c6_heuristic_deterministic "urgent" "urgent" rfl

/-- C4: The link check applied to the state left by the category and
formatting steps behaves as specified: a shortened-link pattern appends
"Shortened or suspicious URLs" and adds 20; otherwise a generic URL
pattern appends "Contains links (verify before clicking)" and adds 10 only
when at least one pattern was already matched; a bare URL with no earlier
pattern contributes nothing. -/
theorem c4_link_check_spec (message : String) :
    linkCheck message (preLinkState message) =
      (if hasShortenedLinks message = true then
        ((preLinkState message).1 ++ ["Shortened or suspicious URLs"],
          (preLinkState message).2 + 20)
      else if hasLinks message = true ∧ (preLinkState message).1 ≠ [] then
        ((preLinkState message).1 ++ ["Contains links (verify before clicking)"],
          (preLinkState message).2 + 10)
      else preLinkState message) := by
  by_cases h1 : hasShortenedLinks message = true
  · rw [if_pos h1]
    unfold linkCheck
    rw [if_pos h1]
  · rw [if_neg h1]
    unfold linkCheck
    rw [if_neg h1]
    by_cases h2 : hasLinks message = true ∧ (preLinkState message).1 ≠ []
    · rw [if_pos h2]
      have hcond : (hasLinks message && decide (0 < (preLinkState message).1.length)) = true := by
        rw [h2.1]
        simp [List.length_pos.mpr h2.2]
      rw [if_pos hcond]
    · rw [if_neg h2]
      have hcond : ¬((hasLinks message && decide (0 < (preLinkState message).1.length)) = true) := by
        intro hc
        simp only [Bool.and_eq_true, decide_eq_true_eq] at hc
        exact h2 ⟨hc.1, List.length_pos.mp hc.2⟩
      rw [if_neg hcond]

/-- C5: The suspicious-phrase list of the heuristic verdict has length at
most 8, has no duplicates, lists phrases in order of their first occurrence
in the accumulated matched keywords, and draws every entry from that
accumulator. -/
theorem c5_suspicious_phrases_shape (message : String) :
    (analyzeHeuristically message).suspiciousPhrases.length ≤ 8 ∧
      (analyzeHeuristically message).suspiciousPhrases.Nodup ∧
      (analyzeHeuristically message).suspiciousPhrases.Pairwise
        (fun a b => firstIdx (categoryScan (toLowerStr message)).2.1 a <
          firstIdx (categoryScan (toLowerStr message)).2.1 b) ∧
      ∀ x ∈ (analyzeHeuristically message).suspiciousPhrases,
        x ∈ (categoryScan (toLowerStr message)).2.1 := by
  have hph : (analyzeHeuristically message).suspiciousPhrases =
      (dedupKeepFirst [] (categoryScan (toLowerStr message)).2.1).take 8 := rfl
  rw [hph]
  refine ⟨List.length_take_le 8 _, ?_, ?_, ?_⟩
  · exact List.Nodup.sublist (List.take_sublist _ _) (dedupKeepFirst_nodup _ _)
  · exact List.Pairwise.sublist (List.take_sublist _ _) (dedupKeepFirst_pairwise _ _)
  · intro x hx
    exact (mem_dedupKeepFirst (List.mem_of_mem_take hx)).1

/-- Witness for C5: a concrete phrase of a concrete verdict is drawn from
the accumulator. -/
theorem c5_suspicious_phrases_shape_witness :
    "urgent" ∈ (categoryScan (toLowerStr "urgent")).2.1 :=
  (c5_suspicious_phrases_shape "urgent").2.2.2 "urgent" (by decide)

/-- C7: Every message containing "urgent" (case-insensitively) gets the
urgentLanguage description among its matched patterns and a final
riskScore of at least 20, and its tier is low whenever the score stays at
most 30. -/
theorem c7_urgent_scores_at_least_twenty (message : String)
    (h : strIncludes (toLowerStr message) "urgent" = true) :
    "Urgent or time-pressured language" ∈ (analyzeHeuristically message).patterns ∧
      20 ≤ (analyzeHeuristically message).riskScore ∧
      ((analyzeHeuristically message).riskScore ≤ 30 →
        (analyzeHeuristically message).riskLevel = "low") := by
  have hmem : "urgent" ∈ matchedKeywords (toLowerStr message) urgentLanguage := by
    unfold matchedKeywords
    refine List.mem_filter.mpr ⟨?_, ?_⟩
    · simp [urgentLanguage]
    · have he : toLowerStr "urgent" = "urgent" := by decide
      rw [he]
      exact h
  have hlen : 0 < (matchedKeywords (toLowerStr message) urgentLanguage).length :=
    List.length_pos.mpr (List.ne_nil_of_mem hmem)
  have hfil : urgentLanguage ∈ SCAM_PATTERNS.filter
      (fun c => decide (0 < (matchedKeywords (toLowerStr message) c).length)) :=
    List.mem_filter.mpr ⟨by simp [SCAM_PATTERNS], by simpa using hlen⟩
  have hscan : "Urgent or time-pressured language" ∈ (categoryScan (toLowerStr message)).1 := by
    rw [categoryScan_eq]
    exact List.mem_map.mpr ⟨urgentLanguage, hfil, rfl⟩
  obtain ⟨ext, k, hp, hs, hk⟩ := scoredState_extends_scan message
  have hpat : "Urgent or time-pressured language" ∈ (scoredState message).1 := by
    rw [hp]
    exact List.mem_append_left _ hscan
  have hscore20 : 20 ≤ (scoredState message).2 := by
    have h20 := (categoryScan_inv (toLowerStr message)).2.2 (List.ne_nil_of_mem hscan)
    omega
  have hfin : 20 ≤ finalScore message := by
    rw [finalScore_eq_clamped]
    exact le_min (by norm_num) hscore20
  have hlenpos : 0 < (scoredState message).1.length :=
    List.length_pos.mpr (List.ne_nil_of_mem hpat)
  have hfield : (analyzeHeuristically message).patterns = (scoredState message).1 := by
    show (if 0 < (scoredState message).1.length then (scoredState message).1 else _) = _
    rw [if_pos hlenpos]
  refine ⟨by rw [hfield]; exact hpat, hfin, ?_⟩
  intro hle
  have hle' : finalScore message ≤ 30 := hle
  show riskLevelOf (finalScore message) = "low"
  unfold riskLevelOf
  rw [if_pos hle']

/-- Witness for C7 at the one-word message "urgent". -/
theorem c7_urgent_scores_at_least_twenty_witness :
    strIncludes (toLowerStr "urgent") "urgent" = true ∧
      "Urgent or time-pressured language" ∈ (analyzeHeuristically "urgent").patterns ∧
      20 ≤ (analyzeHeuristically "urgent").riskScore :=
  ⟨by decide, (c7_urgent_scores_at_least_twenty "urgent" (by decide)).1,
    (c7_urgent_scores_at_least_twenty "urgent" (by decide)).2.1⟩

/-- C8 counterexample: the message "bit.ly" has zero keyword matches (no
catalog keyword and no sensitive-information keyword occurs in it) and
length below 50, yet the heuristic verdict scores 20 via the
shortened-link check and reports that pattern instead of the sentinel. -/
theorem c8_counterexample_bitly :
    (SCAM_PATTERNS.all fun c => (matchedKeywords (toLowerStr "bit.ly") c).isEmpty) = true ∧
      (personalInfoKeywords.all fun k => !(strIncludes (toLowerStr "bit.ly") k)) = true ∧
      "bit.ly".length < 50 ∧
      (analyzeHeuristically "bit.ly").riskScore = 20 ∧
      (analyzeHeuristically "bit.ly").patterns = ["Shortened or suspicious URLs"] := by
  decide

/-- C8 as amended: for every message with zero keyword matches, no
formatting anomaly, no shortened-link pattern, and length below 50, the
heuristic verdict has riskScore 0, riskLevel low, and the sentinel pattern
list. -/
theorem c8_amended_benign_short_message (message : String)
    (hkw : ∀ c ∈ SCAM_PATTERNS, matchedKeywords (toLowerStr message) c = [])
    (hpi : hasPersonalInfoRequest (toLowerStr message) = false)
    (hfmt : formattingFlag message = false)
    (hshort : hasShortenedLinks message = false)
    (hlen : message.length < 50) :
    (analyzeHeuristically message).riskScore = 0 ∧
      (analyzeHeuristically message).riskLevel = "low" ∧
      (analyzeHeuristically message).patterns = ["No scam patterns detected"] := by
  have hscan : categoryScan (toLowerStr message) = ([], [], 0) := by
    rw [categoryScan_eq]
    have hfil : SCAM_PATTERNS.filter
        (fun c => decide (0 < (matchedKeywords (toLowerStr message) c).length)) = [] := by
      rw [List.filter_eq_nil_iff]
      intro c hc
      simp [hkw c hc]
    rw [hfil]
    simp
  have hpre : preLinkState message = ([], 0) := by
    unfold preLinkState formattingCheck
    rw [hscan]
    simp [hfmt]
  have hscored : scoredState message = ([], 0) := by
    unfold scoredState
    rw [hpre]
    unfold linkCheck
    rw [if_neg (by simp [hshort])]
    rw [if_neg (by simp)]
    unfold personalInfoCheck
    rw [if_neg (by simp [hpi])]
  have hnil : (scoredState message).1 = [] := by rw [hscored]
  have hfs : finalScore message = 0 := (finalScore_zero_iff message).mpr hnil
  refine ⟨hfs, ?_, ?_⟩
  · show riskLevelOf (finalScore message) = "low"
    rw [hfs]
    decide
  · show (if 0 < (scoredState message).1.length then (scoredState message).1 else _) = _
    rw [hscored]
    simp

/-- Witness for the amended C8 at the benign short message "hello". -/
theorem c8_amended_benign_short_message_witness :
    (analyzeHeuristically "hello").riskScore = 0 ∧
      (analyzeHeuristically "hello").riskLevel = "low" ∧
      (analyzeHeuristically "hello").patterns = ["No scam patterns detected"] :=
  c8_amended_benign_short_message "hello" (by decide) (by decide) (by decide)
    (by decide) (by decide)

/-- C9 counterexample: a parsed remote response with numeric score 500,
tier "banana" and empty explanation passes the source's validation, and
`analyzeMessage` returns it as-is, violating the claimed verdict
invariants. -/
theorem c9_counterexample_remote_unchecked :
    validRaw badRemote = true ∧
      (analyzeMessage true (RemoteOutcome.parsed badRemote) "hello").riskScore = 500 ∧
      ¬((analyzeMessage true (RemoteOutcome.parsed badRemote) "hello").riskScore ≤ 100) ∧
      (analyzeMessage true (RemoteOutcome.parsed badRemote) "hello").riskLevel = "banana" ∧
      (analyzeMessage true (RemoteOutcome.parsed badRemote) "hello").explanation = "" := by
  decide

/-- C9 as amended: every verdict of `analyzeMessage` is either the
heuristic verdict — which does satisfy the data-model invariants: integer
riskScore in [0, 100], riskLevel among low/medium/high, non-empty
explanation — or a remote verdict accepted as-is after checking only that
its riskScore is numeric and its riskLevel truthy. -/
theorem c9_amended_invariants_heuristic_only (message : String) (hasApiKey : Bool)
    (outcome : RemoteOutcome) :
    (analyzeMessage hasApiKey outcome message = analyzeHeuristically message ∧
       0 ≤ (analyzeHeuristically message).riskScore ∧
       (analyzeHeuristically message).riskScore ≤ 100 ∧
       (analyzeHeuristically message).riskLevel ∈ (["low", "medium", "high"] : List String) ∧
       0 < (analyzeHeuristically message).explanation.length) ∨
      (∃ a, outcome = RemoteOutcome.parsed a ∧ validRaw a = true ∧
        analyzeMessage hasApiKey outcome message = rawToResult a) := by
  have hinv : 0 ≤ (analyzeHeuristically message).riskScore ∧
      (analyzeHeuristically message).riskScore ≤ 100 ∧
      (analyzeHeuristically message).riskLevel ∈ (["low", "medium", "high"] : List String) ∧
      0 < (analyzeHeuristically message).explanation.length := by
    obtain ⟨h0, h100⟩ := finalScore_bounds message
    exact ⟨h0, h100, riskLevelOf_mem (finalScore message),
      explanationOf_length_pos _ _ _⟩
  cases hasApiKey with
  | false => exact Or.inl ⟨rfl, hinv⟩
  | true =>
    cases outcome with
    | failed => exact Or.inl ⟨rfl, hinv⟩
    | parsed a =>
      by_cases hv : validRaw a = true
      · refine Or.inr ⟨a, rfl, hv, ?_⟩
        simp [analyzeMessage, hv]
      · refine Or.inl ⟨?_, hinv⟩
        simp only [Bool.not_eq_true] at hv
        simp [analyzeMessage, hv]

/-- Witness for the amended C9 with no credential configured. -/
theorem c9_amended_invariants_heuristic_only_witness :
    (analyzeMessage false RemoteOutcome.failed "hi" = analyzeHeuristically "hi" ∧
       0 ≤ (analyzeHeuristically "hi").riskScore ∧
       (analyzeHeuristically "hi").riskScore ≤ 100 ∧
       (analyzeHeuristically "hi").riskLevel ∈ (["low", "medium", "high"] : List String) ∧
       0 < (analyzeHeuristically "hi").explanation.length) ∨
      (∃ a, RemoteOutcome.failed = RemoteOutcome.parsed a ∧ validRaw a = true ∧
        analyzeMessage false RemoteOutcome.failed "hi" = rawToResult a) :=
  c9_amended_invariants_heuristic_only "hi" false RemoteOutcome.failed

/-- C10: The detected-pattern list of the heuristic scorer is empty exactly
when the final riskScore is 0; the leniency subtraction of step 7 never
changes the clamped score; and the sentinel pattern list appears exactly
when riskScore is 0. -/
theorem c10_patterns_empty_iff_score_zero (message : String) :
    ((scoredState message).1 = [] ↔ (analyzeHeuristically message).riskScore = 0) ∧
      (analyzeHeuristically message).riskScore = min 100 (scoredState message).2 ∧
      ((analyzeHeuristically message).patterns = ["No scam patterns detected"] ↔
        (analyzeHeuristically message).riskScore = 0) := by
  have hrs : (analyzeHeuristically message).riskScore = finalScore message := rfl
  refine ⟨?_, ?_, ?_⟩
  · rw [hrs]
    exact (finalScore_zero_iff message).symm
  · rw [hrs]
    exact finalScore_eq_clamped message
  · rw [hrs]
    have hpat : (analyzeHeuristically message).patterns =
        (if 0 < (scoredState message).1.length then (scoredState message).1
         else ["No scam patterns detected"]) := rfl
    rw [hpat]
    constructor
    · intro h
      by_cases hlen : 0 < (scoredState message).1.length
      · rw [if_pos hlen] at h
        exfalso
        have hsent : "No scam patterns detected" ∈ (scoredState message).1 := by
          rw [h]
          exact List.mem_singleton_self _
        exact absurd (scoredState_patterns_mem message _ hsent) (by decide)
      · rw [finalScore_zero_iff]
        exact List.length_eq_zero.mp (Nat.eq_zero_of_not_pos hlen)
    · intro h
      have hnil : (scoredState message).1 = [] := (finalScore_zero_iff message).mp h
      rw [if_neg (by simp [hnil])]

/-- Witness for C10 at a concrete message. -/
theorem c10_patterns_empty_iff_score_zero_witness :
    ((scoredState "hey").1 = [] ↔ (analyzeHeuristically "hey").riskScore = 0) ∧
      (analyzeHeuristically "hey").riskScore = min 100 (scoredState "hey").2 ∧
      ((analyzeHeuristically "hey").patterns = ["No scam patterns detected"] ↔
        (analyzeHeuristically "hey").riskScore = 0) :=
  c10_patterns_empty_iff_score_zero "hey"
